import Mathlib

/-!
# Verification of the downloadlllArticle crawl-and-convert pipeline

Shallow embedding of the three Python source files `downloadTheColumn.py`,
`downloadSpecArticle.py` and `downloadAll.py`: an HTML tree model with the
BeautifulSoup query operations the code uses, models of the standard-library
string/URL helpers the code calls (`urljoin`, `os.path.basename`,
`str.replace`, `str.strip`, `str.isalnum`/`isspace`), and the repository's
own functions translated on top of them.  Theorems about the claims of the
specification follow the definitions.
-/

/-- An HTML tree as parsed by BeautifulSoup: an element with a tag name, an
attribute list and children, or a text node. -/
inductive Node where
  | elem (tag : String) (attrs : List (String × String)) (children : List Node)
  | text (s : String)

/-- Attribute lookup on an attribute list (first binding wins), modelling
`tag.get(key)` / `tag[key]` access on a BeautifulSoup element. -/
def attrLookup (attrs : List (String × String)) (key : String) : Option String :=
  match attrs with
  | [] => none
  | (k, v) :: rest => if k = key then some v else attrLookup rest key

/-- `n.get(key)` on a node: `none` for text nodes or a missing attribute. -/
def Node.getAttr (n : Node) (key : String) : Option String :=
  match n with
  | .elem _ attrs _ => attrLookup attrs key
  | .text _ => none

/-- Is `pat` a leading segment of `l`?  (Plain character-list computation used
to model Python's `in` substring tests.) -/
def charsPre : List Char → List Char → Bool
  | [], _ => true
  | _ :: _, [] => false
  | a :: as, b :: bs => a == b && charsPre as bs

/-- Does `pat` occur contiguously inside `l`?  Models Python's `sub in s`. -/
def charsSub (pat : List Char) : List Char → Bool
  | [] => pat.isEmpty
  | b :: bs => charsPre pat (b :: bs) || charsSub pat bs

/-- `pat in s` for strings, as Python evaluates membership of a substring. -/
def strContains (s pat : String) : Bool :=
  charsSub pat.toList s.toList

/-- Fuel-driven split scan: cut `l` at every non-overlapping occurrence of
`sep`, keeping empty segments; `acc` is the current segment reversed. -/
def splitAux : Nat → List Char → List Char → List Char → List (List Char)
  | 0, _, acc, l => [acc.reverse ++ l]
  | fuel + 1, sep, acc, l =>
    match l with
    | [] => [acc.reverse]
    | c :: cs =>
      if !sep.isEmpty && charsPre sep (c :: cs) then
        acc.reverse :: splitAux fuel sep [] ((c :: cs).drop sep.length)
      else splitAux fuel sep (c :: acc) cs

/-- `s.split(sep)` for a non-empty separator (a whole-string singleton
otherwise), as both Python's `str.split` with an argument and Lean's
`String.splitOn` behave. -/
def strSplitOn (s sep : String) : List String :=
  if sep == "" then [s]
  else (splitAux (s.toList.length + 1) sep.toList [] s.toList).map fun l => ⟨l⟩

/-- BeautifulSoup class matching: a one-word query matches when the word is
among the whitespace-separated class tokens; a query with a space matches the
class attribute string exactly. -/
def classMatches (query attrVal : String) : Bool :=
  if strContains query " " then query == attrVal
  else (strSplitOn attrVal " ").contains query

/-- Does node `n` match tag `tag` and every attribute condition in `conds`?
The `class` key uses BeautifulSoup's class matching, every other key requires
the exact attribute value; a condition on a missing attribute fails.  Text
nodes match nothing. -/
def Node.matchesSel (n : Node) (tag : String) (conds : List (String × String)) : Bool :=
  match n with
  | .text _ => false
  | .elem t attrs _ =>
    t == tag && conds.all fun (k, v) =>
      match attrLookup attrs k with
      | none => false
      | some actual => if k = "class" then classMatches v actual else v == actual

mutual
/-- All descendants of a node in document (pre-)order, the node itself
excluded — the search space of BeautifulSoup's recursive `find`/`find_all`. -/
def nodeDesc : Node → List Node
  | .text _ => []
  | .elem _ _ cs => listDesc cs

/-- Pre-order listing of a forest: each root followed by its descendants. -/
def listDesc : List Node → List Node
  | [] => []
  | c :: cs => c :: (nodeDesc c ++ listDesc cs)
end

/-- `n.find_all(tag, conds)`: matching descendants in document order. -/
def Node.findAll (n : Node) (tag : String) (conds : List (String × String)) : List Node :=
  (nodeDesc n).filter fun d => d.matchesSel tag conds

/-- `n.find(tag, conds)`: the first matching descendant, if any. -/
def Node.findFirst (n : Node) (tag : String) (conds : List (String × String)) : Option Node :=
  (n.findAll tag conds).head?

/-- Whitespace characters as Python's `str.isspace`/`str.strip` treat the
ASCII range. -/
def pyIsSpace (c : Char) : Bool :=
  c == ' ' || c == '\t' || c == '\n' || c == '\r' || c == '\x0b' || c == '\x0c'

/-- `str.strip()` restricted to the ASCII whitespace above. -/
def pyStrip (s : String) : String :=
  ⟨(s.toList.dropWhile pyIsSpace).reverse.dropWhile pyIsSpace |>.reverse⟩

/-- `c.isalnum()` restricted to ASCII letters and digits (titles in the
claims are drawn from this range). -/
def pyIsAlnum (c : Char) : Bool :=
  ('a' ≤ c && c ≤ 'z') || ('A' ≤ c && c ≤ 'Z') || ('0' ≤ c && c ≤ '9')

mutual
/-- Concatenation of all text descendants of a node, unstripped: the `.text`
property of a BeautifulSoup element. -/
def nodeTextAll : Node → String
  | .text s => s
  | .elem _ _ cs => listTextAll cs

/-- `.text` over a forest. -/
def listTextAll : List Node → String
  | [] => ""
  | c :: cs => nodeTextAll c ++ listTextAll cs
end

mutual
/-- `get_text(strip=True)`: each text descendant stripped, concatenated. -/
def nodeTextStrip : Node → String
  | .text s => pyStrip s
  | .elem _ _ cs => listTextStrip cs

/-- `get_text(strip=True)` over a forest. -/
def listTextStrip : List Node → String
  | [] => ""
  | c :: cs => nodeTextStrip c ++ listTextStrip cs
end

/-- Does the string contain `"://"` — the crude scheme test our `urljoin`
model uses to recognise an absolute URL. -/
def hasScheme (s : String) : Bool :=
  strContains s "://"

/-- Join string pieces with a separator (inverse of `strSplitOn`). -/
def strJoinSep (sep : String) : List String → String
  | [] => ""
  | [s] => s
  | s :: rest => s ++ sep ++ strJoinSep sep rest

/-- `scheme://host` head of an absolute URL: everything up to the first `/`
after the `://` separator (the whole string when the URL has no scheme). -/
def schemeHost (u : String) : String :=
  match strSplitOn u "://" with
  | [_] => u
  | scheme :: after =>
    scheme ++ "://" ++ ⟨(strJoinSep "://" after).toList.takeWhile (fun c => c != '/')⟩
  | [] => u

/-- The directory part of a URL string: everything up to and including the
last `/` (the whole string when no `/` occurs). -/
def urlDir (u : String) : String :=
  ⟨(u.toList.reverse.dropWhile (fun c => c != '/')).reverse⟩

/-- Model of Python's `urllib.parse.urljoin` for the URL shapes this program
produces: an empty relative part returns the base, an absolute URL replaces
the base, a root-relative path is attached to the base's `scheme://host`, and
any other relative part replaces the base's last path component. -/
def urljoin (base rel : String) : String :=
  if rel == "" then base
  else if hasScheme rel then rel
  else if charsPre "/".toList rel.toList then schemeHost base ++ rel
  else urlDir base ++ rel

/-- `os.path.basename` on POSIX: the part of the string after the last `/`. -/
def os_path_basename (s : String) : String :=
  ⟨(s.toList.reverse.takeWhile (fun c => c != '/')).reverse⟩

/-- Value of a hex digit, 0 for other characters. -/
def hexVal (c : Char) : Nat :=
  if '0' ≤ c && c ≤ '9' then c.toNat - '0'.toNat
  else if 'a' ≤ c && c ≤ 'f' then c.toNat - 'a'.toNat + 10
  else if 'A' ≤ c && c ≤ 'F' then c.toNat - 'A'.toNat + 10
  else 0

/-- Is the character a hex digit? -/
def isHexDigit (c : Char) : Bool :=
  ('0' ≤ c && c ≤ '9') || ('a' ≤ c && c ≤ 'f') || ('A' ≤ c && c ≤ 'F')

/-- Percent-decoding scan behind `pyUnquote`. -/
def unquoteChars : List Char → List Char
  | '%' :: a :: b :: rest =>
    if isHexDigit a && isHexDigit b then
      Char.ofNat (16 * hexVal a + hexVal b) :: unquoteChars rest
    else '%' :: unquoteChars (a :: b :: rest)
  | c :: rest => c :: unquoteChars rest
  | [] => []

/-- Model of `urllib.parse.unquote` for single-byte escapes: each `%xx` pair
of hex digits becomes the character with that code. -/
def pyUnquote (s : String) : String :=
  ⟨unquoteChars s.toList⟩

/-- The path component of a URL as `urllib.parse.urlparse(u).path` yields it:
fragment and query stripped, then the `scheme://host` head removed. -/
def urlPath (u : String) : String :=
  let noFrag := (strSplitOn u "#").headD u
  let noQuery := (strSplitOn noFrag "?").headD noFrag
  if hasScheme noQuery then ⟨noQuery.toList.drop (schemeHost noQuery).toList.length⟩
  else noQuery

/-- Fuel-driven non-overlapping left-to-right replacement scan. -/
def replaceAux : Nat → List Char → List Char → List Char → List Char
  | 0, l, _, _ => l
  | fuel + 1, l, pat, rep =>
    match l with
    | [] => []
    | c :: cs =>
      if !pat.isEmpty && charsPre pat (c :: cs) then
        rep ++ replaceAux fuel ((c :: cs).drop pat.length) pat rep
      else c :: replaceAux fuel cs pat rep

/-- Python's `str.replace("", rep)`: the replacement is inserted before every
character and once at the end. -/
def insertEverywhere (rep : List Char) : List Char → List Char
  | [] => rep
  | c :: cs => rep ++ c :: insertEverywhere rep cs

/-- Python's `str.replace(pat, rep)`: every non-overlapping occurrence, left
to right; an empty pattern inserts the replacement at every position. -/
def pyReplace (s pat rep : String) : String :=
  if pat == "" then ⟨insertEverywhere rep.toList s.toList⟩
  else ⟨replaceAux (s.toList.length + 1) s.toList pat.toList rep.toList⟩

/-- Title sanitization from `ArticleProcessor.get_title`:
`"".join(c for c in title if c.isalnum() or c.isspace() or c in '-_')`. -/
def sanitizeTitle (s : String) : String :=
  ⟨s.toList.filter fun c => pyIsAlnum c || pyIsSpace c || "-_".toList.contains c⟩

/-- `ArticleProcessor.get_title`: text of the `h1#title` element, stripped and
sanitized; fallback to the URL path's percent-decoded basename with every
`".md"` occurrence removed when the heading is absent. -/
def get_title (doc : Node) (url : String) : String :=
  match doc.findFirst "h1" [("id", "title")] with
  | some h => sanitizeTitle (pyStrip (nodeTextAll h))
  | none => pyReplace (os_path_basename (pyUnquote (urlPath url))) ".md" ""

/-- The banner phrase tested by `clean_content`. -/
def googleNotice : String := "因收到Google相关通知，网站将会择期关闭"

/-- Is the node a `div` element?  (`find('div', recursive=False)` only looks
at element children with this tag.) -/
def isDivTag : Node → Bool
  | .elem t _ _ => t == "div"
  | .text _ => false

/-- `article_content.find('div', recursive=False)`: the first direct child
that is a `div` element. -/
def firstDirectDiv (cs : List Node) : Option Node :=
  cs.find? isDivTag

/-- Remove the first direct `div` child (the effect of `first_div.decompose()`
on the children list). -/
def eraseFirstDirectDiv : List Node → List Node
  | [] => []
  | c :: cs => if isDivTag c then cs else c :: eraseFirstDirectDiv cs

/-- The removal condition of `clean_content`: `align == 'center'` and the
stripped text contains the Google notice phrase. -/
def isGoogleNoticeDiv (d : Node) : Bool :=
  (d.getAttr "align" == some "center") && strContains (nodeTextStrip d) googleNotice

/-- `ArticleProcessor.clean_content` / `HTMLToMarkdownConverter.clean_content`:
find the first direct `div` child; if it is center-aligned and its text
contains the notice phrase, decompose it; otherwise return the tree as is. -/
def clean_content (t : Node) : Node :=
  match t with
  | .text s => .text s
  | .elem tag attrs cs =>
    match firstDirectDiv cs with
    | none => .elem tag attrs cs
    | some d =>
      if isGoogleNoticeDiv d then .elem tag attrs (eraseFirstDirectDiv cs)
      else .elem tag attrs cs

/-- The donation marker excluded from menu links. -/
def donationMarker : String := "捐赠"

/-- The anchor loop of `ColumnDownloader.get_article_list`: for each
`a.menu-item`, keep `urljoin(base_url, href)` when `href` is truthy and does
not contain the donation marker. -/
def articleLoop (baseUrl : String) : List Node → List String
  | [] => []
  | item :: rest =>
    match item.getAttr "href" with
    | some href =>
      if href != "" && !strContains href donationMarker then
        urljoin baseUrl href :: articleLoop baseUrl rest
      else articleLoop baseUrl rest
    | none => articleLoop baseUrl rest

/-- `ColumnDownloader.get_article_list` on an already-fetched listing
document: locate `div.book-menu.uncollapsible`, take the last
`ul.uncollapsible` inside it, and collect its qualifying menu-item links. -/
def get_article_list (doc : Node) (baseUrl : String) : List String :=
  match doc.findFirst "div" [("class", "book-menu uncollapsible")] with
  | none => []
  | some bookMenu =>
    match (bookMenu.findAll "ul" [("class", "uncollapsible")]).getLast? with
    | none => []
    | some articleList => articleLoop baseUrl (articleList.findAll "a" [("class", "menu-item")])

/-- Follows the claim's words for C2: the menu-item links of the last
qualifying sub-list whose href does not contain the donation marker, each
resolved against the site base URL, in document order; empty when the
container or any qualifying sub-list is absent. -/
def listArticlesClaim (doc : Node) (baseUrl : String) : List String :=
  match doc.findFirst "div" [("class", "book-menu uncollapsible")] with
  | none => []
  | some bookMenu =>
    match (bookMenu.findAll "ul" [("class", "uncollapsible")]).getLast? with
    | none => []
    | some subList =>
      (subList.findAll "a" [("class", "menu-item")]).filterMap fun item =>
        match item.getAttr "href" with
        | some href =>
          if strContains href donationMarker then none else some (urljoin baseUrl href)
        | none => none

mutual
/-- Modelled from the spec: `html2text.HTML2Text().handle` with
`ignore_links = False`, `ignore_images = False` (and `body_width = 0` in
`downloadTheColumn.py`) is an external library absent from the repository;
per §4.4 it preserves hyperlinks and images as Markdown link/image syntax and
does not hard-wrap, so anchors with an `href` become `[text](href)` and
images become `![alt](src)` while other markup contributes its converted
children. -/
def html2textHandle : Node → String
  | .text s => s
  | .elem t attrs cs =>
    if t == "a" then
      match attrLookup attrs "href" with
      | some href => "[" ++ handleNodes cs ++ "](" ++ href ++ ")"
      | none => handleNodes cs
    else if t == "img" then
      "![" ++ ((attrLookup attrs "alt").getD "") ++ "](" ++ ((attrLookup attrs "src").getD "") ++ ")"
    else handleNodes cs

/-- Conversion of a forest: concatenation of converted children. -/
def handleNodes : List Node → String
  | [] => ""
  | c :: cs => html2textHandle c ++ handleNodes cs
end

/-- Result of `process_content`: the rewritten Markdown together with the log
of attempted image downloads `(resolved URL, success)`, or the uncaught
`KeyError` raised by `img['src']` on a source-less image, with the downloads
attempted before the crash. -/
inductive ProcResult where
  | ok (markdown : String) (downloads : List (String × Bool))
  | keyError (downloads : List (String × Bool))
deriving DecidableEq, Repr

/-- The image loop of `process_content`: for each `img`, resolve
`img.get('src', '')` against the article URL, derive the filename with
`os.path.basename`, attempt the download (`ok` says whether it succeeds), and
on success replace every occurrence of `img['src']` in the Markdown by
`./assets/{filename}` with backslashes turned into forward slashes —
accessing `img['src']` raises `KeyError` when the attribute is missing.
-/
def process_imgs (url : String) (ok : String → Bool) :
    List Node → String → List (String × Bool) → ProcResult
  | [], md, log => .ok md log
  | img :: rest, md, log =>
    let imgUrl := urljoin url ((img.getAttr "src").getD "")
    let imgFilename := os_path_basename imgUrl
    if ok imgUrl then
      match img.getAttr "src" with
      | none => .keyError (log ++ [(imgUrl, true)])
      | some orig =>
        process_imgs url ok rest
          (pyReplace md orig (pyReplace ("./assets/" ++ imgFilename) "\\" "/"))
          (log ++ [(imgUrl, true)])
    else process_imgs url ok rest md (log ++ [(imgUrl, false)])

/-- `ArticleProcessor.process_content` (and, through the in-place mutation of
`article_content` by `clean_content`, also
`HTMLToMarkdownConverter.process_content`): clean the tree, convert it to
Markdown, then run the image loop over `cleaned_content.find_all('img')`. -/
def process_content (url : String) (ok : String → Bool) (content : Node) : ProcResult :=
  let cleaned := clean_content content
  let markdown := html2textHandle cleaned
  process_imgs url ok (cleaned.findAll "img" []) markdown []

/-- Observable events of the menu-mode orchestrator: an article processed
(with the boolean `process_article` returned) or a `time.sleep`. -/
inductive ColEvent where
  | process (url : String) (success : Bool)
  | sleep (secs : Nat)
deriving DecidableEq, Repr

/-- One Python exception suffices for this development: the `KeyError` from
`img['src']`. -/
inductive PyErr where
  | keyError
deriving DecidableEq, Repr

/-- The boolean an `Except`-valued article outcome carries, `false` on an
exception (used only under a no-exception hypothesis). -/
def okD : Except PyErr Bool → Bool
  | .ok b => b
  | .error _ => false

/-- The `for index, url in enumerate(article_urls, 1)` loop of
`download_column`: process each article (its boolean result is discarded, an
exception propagates), and `time.sleep(5)` after it while `index < total`. -/
def download_column_loop (res : String → Except PyErr Bool) :
    List String → Nat → Nat → Except PyErr (List ColEvent)
  | [], _, _ => .ok []
  | u :: rest, index, total =>
    match res u with
    | .error e => .error e
    | .ok b =>
      match download_column_loop res rest (index + 1) total with
      | .error e => .error e
      | .ok tail =>
        .ok (.process u b :: (if index < total then ColEvent.sleep 5 :: tail else tail))

/-- `download_column` in menu-enumeration mode, abstracted over the per-URL
outcome of `ArticleProcessor.process_article`: early return on an empty
article list, otherwise the enumerate loop starting at index 1. -/
def download_column (urls : List String) (res : String → Except PyErr Bool) :
    Except PyErr (List ColEvent) :=
  if urls.isEmpty then .ok []
  else download_column_loop res urls 1 urls.length

/-- Outcome of the pagination crawl: normal termination with the visited set,
or fuel exhaustion (shown below never to occur with enough fuel). -/
inductive CrawlResult where
  | done (visited : List String)
  | outOfFuel
deriving DecidableEq, Repr

/-- First-match lookup in the finite next-page-link table. -/
def lookupNext : List (String × String) → String → Option String
  | [], _ => none
  | (k, v) :: rest, u => if k == u then some v else lookupNext rest u

/-- Membership of a URL in the visited set (`u in visited`). -/
def visitedHas : List String → String → Bool
  | [], _ => false
  | v :: rest, u => u == v || visitedHas rest u

/-- Modelled from the spec: the pagination-mode orchestrator of §4.6/§4.7 is
absent from `src/` (only menu-enumeration flows are implemented).  Per the
spec, each page's article-processing steps run, the next-page URL is looked
up, and a next URL that is null, empty, or already visited terminates the
crawl as Done; otherwise the next URL is added to the visited set before it
is used and the loop continues.  `pages` is the finite next-link map of the
site, `fuel` a bound on the number of iterations. -/
def crawlFrom (pages : List (String × String)) :
    Nat → List String → String → CrawlResult
  | 0, _, _ => .outOfFuel
  | fuel + 1, visited, current =>
    match lookupNext pages current with
    | none => .done visited
    | some nxt =>
      if nxt == "" || visitedHas visited nxt then .done visited
      else crawlFrom pages fuel (nxt :: visited) nxt

/-- Modelled from the spec: the whole pagination crawl from the column's
first-article URL, the start URL visited before it is fetched, with fuel one
more than the number of link targets on the site. -/
def crawlColumn (pages : List (String × String)) (start : String) : CrawlResult :=
  crawlFrom pages ((pages.map Prod.snd).length + 1) [start] start

/-- `{output_dir}/{title}.md`, the path `save_markdown` writes. -/
def markdownPath (outputDir title : String) : String :=
  outputDir ++ "/" ++ title ++ ".md"

/-- A filesystem as write history: `open(path, 'w')` prepends, reads see the
newest write first — last write wins. -/
def fsWrite (fs : List (String × String)) (path content : String) : List (String × String) :=
  (path, content) :: fs

/-- Read a path from the write history. -/
def fsRead : List (String × String) → String → Option String
  | [], _ => none
  | (p, c) :: rest, q => if p == q then some c else fsRead rest q

/-- `ArticleProcessor.save_markdown`: write the content at
`{output_dir}/{title}.md`, overwriting whatever is there. -/
def save_markdown (fs : List (String × String)) (outputDir title content : String) :
    List (String × String) :=
  fsWrite fs (markdownPath outputDir title) content

mutual
/-- All values of attribute `key` on elements with tag `tag` in the subtree,
the root included, in document order — used to state what a conversion may
not drop. -/
def collectAttr (tag key : String) : Node → List String
  | .text _ => []
  | .elem t attrs cs =>
    (if t == tag then
      match attrLookup attrs key with
      | some v => [v]
      | none => []
     else []) ++ collectAttrList tag key cs

/-- `collectAttr` over a forest. -/
def collectAttrList (tag key : String) : List Node → List String
  | [] => []
  | c :: cs => collectAttr tag key c ++ collectAttrList tag key cs
end

/-- Number of direct children of a node (an observation separating trees in
counterexamples). -/
def Node.numChildren : Node → Nat
  | .text _ => 0
  | .elem _ _ cs => cs.length

/-- The download log of a `process_content` result. -/
def downloadsOf : ProcResult → List (String × Bool)
  | .ok _ log => log
  | .keyError log => log

/-- The URL of a processing event, `none` for a sleep. -/
def eventUrl : ColEvent → Option String
  | .process u _ => some u
  | .sleep _ => none

/-- Is the event a sleep? -/
def isSleepEv : ColEvent → Bool
  | .sleep _ => true
  | .process _ _ => false

/-- The character predicate of the spec's sanitization sentence: alphanumeric,
whitespace, `-` or `_`. -/
def specKeepChar (c : Char) : Bool :=
  pyIsAlnum c || pyIsSpace c || decide (c = '-') || decide (c = '_')

/-- Follows the claim's words for C1: the local image filename is the
resolved URL's path basename. -/
def imageFilenameClaim (resolvedUrl : String) : String :=
  os_path_basename (urlPath resolvedUrl)

/-- The claim for C2 as amended: menu-item links with a missing or empty
href are excluded as well. -/
def listArticlesAmended (doc : Node) (baseUrl : String) : List String :=
  match doc.findFirst "div" [("class", "book-menu uncollapsible")] with
  | none => []
  | some bookMenu =>
    match (bookMenu.findAll "ul" [("class", "uncollapsible")]).getLast? with
    | none => []
    | some subList =>
      (subList.findAll "a" [("class", "menu-item")]).filterMap fun item =>
        match item.getAttr "href" with
        | some href =>
          if href != "" && !strContains href donationMarker then some (urljoin baseUrl href)
          else none
        | none => none

/-- A listing document whose last qualifying sub-list holds a normal link, a
donation link, and a menu-item anchor with an empty href. -/
def listingDemo : Node :=
  Node.elem "html" [] [
    Node.elem "div" [("class", "book-menu uncollapsible")] [
      Node.elem "ul" [("class", "uncollapsible")] [
        Node.elem "li" [] [Node.elem "a" [("class", "menu-item"), ("href", "/toc.html")] [Node.text "toc"]]],
      Node.elem "ul" [("class", "uncollapsible")] [
        Node.elem "li" [] [Node.elem "a" [("class", "menu-item"), ("href", "/a.html")] [Node.text "a"]],
        Node.elem "li" [] [Node.elem "a" [("class", "menu-item"), ("href", "/donate捐赠.html")] [Node.text "d"]],
        Node.elem "li" [] [Node.elem "a" [("class", "menu-item"), ("href", "")] [Node.text "empty"]]]]]

/-- A two-image article body whose first src (`x.png`) occurs as a substring
of the second (`ax.png`). -/
def twoImgContent : Node :=
  Node.elem "div" [("class", "book-post")] [
    Node.elem "img" [("src", "x.png")] [],
    Node.elem "img" [("src", "ax.png")] []]

/-- A two-image article body with unrelated srcs, for a mixed
success/failure run. -/
def mixedImgContent : Node :=
  Node.elem "div" [("class", "book-post")] [
    Node.elem "img" [("src", "x.png")] [],
    Node.elem "img" [("src", "y.png")] []]

/-- Follows the amended claim's words for C1: one image's localization step —
resolve its src (`img.get('src', '')`) against the article URL, derive the
filename as the basename of the full resolved URL string, and, exactly when
the download succeeds, replace every literal occurrence of the original src
in the current Markdown text by `./assets/{filename}` with backslashes
normalized; on failure the text is left unchanged. -/
def localizeStep (url : String) (ok : String → Bool) (md : String) (i : Node) : String :=
  let s := (i.getAttr "src").getD ""
  let resolved := urljoin url s
  if ok resolved then
    pyReplace md s (pyReplace ("./assets/" ++ os_path_basename resolved) "\\" "/")
  else md

/-- Follows the amended claim's words for C1: the images are localized
sequentially in document order, each step acting on the Markdown text as
already rewritten for the earlier images. -/
def localizeAll (url : String) (ok : String → Bool) (imgs : List Node) (md : String) : String :=
  imgs.foldl (localizeStep url ok) md

/-- The Google-notice banner div, an image inside it. -/
def bannerWithImg : Node :=
  Node.elem "div" [("align", "center")] [
    Node.text " 因收到Google相关通知，网站将会择期关闭 ",
    Node.elem "img" [("src", "ban.png")] []]

/-- A content container whose first child is the notice banner (with an
embedded image) followed by body text and a body image. -/
def bannerContent : Node :=
  Node.elem "div" [("class", "book-post")] [
    bannerWithImg,
    Node.elem "p" [] [Node.text "body"],
    Node.elem "img" [("src", "pic.png")] []]

/-- A content container whose first child is a span and whose second child is
a centered notice div — the first *child* is not a div. -/
def skipContent : Node :=
  Node.elem "div" [("class", "book-post")] [
    Node.elem "span" [] [Node.text "x"],
    Node.elem "div" [("align", "center")] [Node.text "因收到Google相关通知，网站将会择期关闭"]]

/-- A content container whose first child is centered but holds unrelated
text. -/
def centeredUnrelatedContent : Node :=
  Node.elem "div" [("class", "book-post")] [
    Node.elem "div" [("align", "center")] [Node.text "just an epigraph"],
    Node.elem "p" [] [Node.text "body"]]

/-- A content container holding one image without a `src` attribute. -/
def srclessImgContent : Node :=
  Node.elem "div" [("class", "book-post")] [Node.elem "img" [] []]

/-- The `src`-less image element itself. -/
def srclessImg : Node :=
  Node.elem "img" [] []

/-- A small subtree with a hyperlink and an image, for the conversion
round-trip witness. -/
def linkImgContent : Node :=
  Node.elem "div" [] [
    Node.elem "p" [] [Node.elem "a" [("href", "x.html")] [Node.text "link"]],
    Node.elem "img" [("src", "y.png")] []]

/-- A parsed article document titled `A!`. -/
def titledDocA : Node :=
  Node.elem "html" [] [Node.elem "h1" [("id", "title")] [Node.text " A! "]]

/-- A parsed article document titled `A?` — a different title that sanitizes
to the same string as `titledDocA`'s. -/
def titledDocB : Node :=
  Node.elem "html" [] [Node.elem "h1" [("id", "title")] [Node.text " A? "]]

mutual
/-- Validity of a parsed subtree: `img` is a void element, so a tree produced
by the HTML parser never gives it children. -/
def voidOk : Node → Bool
  | .text _ => true
  | .elem t _ cs => (if t == "img" then cs.isEmpty else true) && voidOkList cs

/-- Validity over a forest. -/
def voidOkList : List Node → Bool
  | [] => true
  | c :: cs => voidOk c && voidOkList cs
end

/-! ## Substring lemmas -/

theorem charsPre_refl : ∀ p : List Char, charsPre p p = true
  | [] => rfl
  | a :: as => by simp [charsPre, charsPre_refl as]

theorem charsPre_append_self : ∀ (p r : List Char), charsPre p (p ++ r) = true
  | [], _ => rfl
  | a :: as, r => by simp [charsPre, charsPre_append_self as r]

theorem charsPre_append_right :
    ∀ {p l : List Char}, charsPre p l = true → ∀ r, charsPre p (l ++ r) = true := by
  intro p
  induction p with
  | nil => intro l _ r; rfl
  | cons a as ih =>
    intro l h r
    cases l with
    | nil => simp [charsPre] at h
    | cons b bs =>
      simp only [charsPre, Bool.and_eq_true] at h
      simp only [List.cons_append, charsPre, Bool.and_eq_true]
      exact ⟨h.1, ih h.2 r⟩

theorem charsSub_of_pre : ∀ {p l : List Char}, charsPre p l = true → charsSub p l = true := by
  intro p l h
  cases l with
  | nil =>
    cases p with
    | nil => rfl
    | cons a as => simp [charsPre] at h
  | cons b bs => simp [charsSub, h]

theorem charsSub_mono_right :
    ∀ {p l : List Char}, charsSub p l = true → ∀ r, charsSub p (l ++ r) = true := by
  intro p l
  induction l with
  | nil =>
    intro h r
    cases p with
    | nil =>
      cases r with
      | nil => rfl
      | cons c cs => simp [charsSub, charsPre]
    | cons a as => simp [charsSub, List.isEmpty] at h
  | cons b bs ih =>
    intro h r
    simp only [charsSub, Bool.or_eq_true] at h
    rcases h with h | h
    · simp only [List.cons_append, charsSub, Bool.or_eq_true]
      exact Or.inl (charsPre_append_right h r)
    · simp only [List.cons_append, charsSub, Bool.or_eq_true]
      exact Or.inr (ih h r)

theorem charsSub_mono_left :
    ∀ {p r : List Char} (l : List Char), charsSub p r = true → charsSub p (l ++ r) = true := by
  intro p r l h
  induction l with
  | nil => exact h
  | cons c cs ih =>
    simp only [List.cons_append, charsSub, Bool.or_eq_true]
    exact Or.inr ih

theorem strContains_mono_left (x : String) {s pat : String}
    (h : strContains s pat = true) : strContains (x ++ s) pat = true := by
  simp only [strContains, String.toList, String.data_append] at h ⊢
  exact charsSub_mono_left x.data h

theorem strContains_mono_right {s pat : String} (y : String)
    (h : strContains s pat = true) : strContains (s ++ y) pat = true := by
  simp only [strContains, String.toList, String.data_append] at h ⊢
  exact charsSub_mono_right h y.data

theorem strContains_self_append (pat y : String) : strContains (pat ++ y) pat = true := by
  simp only [strContains, String.toList, String.data_append]
  exact charsSub_of_pre (charsPre_append_self pat.data y.data)

theorem strContains_self (pat : String) : strContains pat pat = true := by
  simp only [strContains, String.toList]
  exact charsSub_of_pre (charsPre_refl pat.data)

/-- A pattern emitted right at the end of a string is contained in it. -/
theorem strContains_emit (pre v : String) :
    strContains (pre ++ "](" ++ v ++ ")") ("](" ++ v ++ ")") = true := by
  have h : pre ++ "](" ++ v ++ ")" = pre ++ ("](" ++ (v ++ ")")) := by
    simp [String.append_assoc]
  have hp : "](" ++ v ++ ")" = "](" ++ (v ++ ")") := by
    simp [String.append_assoc]
  rw [h, hp]
  exact strContains_mono_left pre (strContains_self _)

mutual
/-- Every anchor href and image src collected from a valid subtree appears as
the target of a Markdown link/image construct in the converted output. -/
theorem handleKeepsNode (t : Node) (v : String)
    (hv : v ∈ collectAttr "a" "href" t ∨ v ∈ collectAttr "img" "src" t)
    (hvalid : voidOk t = true) :
    strContains (html2textHandle t) ("](" ++ v ++ ")") = true := by
  cases t with
  | text s => simp [collectAttr] at hv
  | elem tg attrs cs =>
    have hvl : voidOkList cs = true := by
      have h := hvalid
      simp only [voidOk, Bool.and_eq_true] at h
      exact h.2
    by_cases ha : tg = "a"
    · subst ha
      cases hhref : attrLookup attrs "href" with
      | none =>
        have hv' : v ∈ collectAttrList "a" "href" cs ∨ v ∈ collectAttrList "img" "src" cs := by
          rcases hv with hv | hv
          · exact Or.inl (by simpa [collectAttr, hhref] using hv)
          · exact Or.inr (by simpa [collectAttr] using hv)
        have hrec := handleKeepsList cs v hv' hvl
        simpa [html2textHandle, hhref] using hrec
      | some href =>
        have hshape : html2textHandle (Node.elem "a" attrs cs)
            = "[" ++ handleNodes cs ++ "](" ++ href ++ ")" := by
          simp [html2textHandle, hhref]
        rw [hshape]
        rcases hv with hv | hv
        · have hv' : v = href ∨ v ∈ collectAttrList "a" "href" cs := by
            simpa [collectAttr, hhref] using hv
          rcases hv' with rfl | hv'
          · exact strContains_emit ("[" ++ handleNodes cs) v
          · have hrec := handleKeepsList cs v (Or.inl hv') hvl
            exact strContains_mono_right ")" (strContains_mono_right href
              (strContains_mono_right "](" (strContains_mono_left "[" hrec)))
        · have hv' : v ∈ collectAttrList "img" "src" cs := by
            simpa [collectAttr] using hv
          have hrec := handleKeepsList cs v (Or.inr hv') hvl
          exact strContains_mono_right ")" (strContains_mono_right href
            (strContains_mono_right "](" (strContains_mono_left "[" hrec)))
    · by_cases hi : tg = "img"
      · subst hi
        have hempty : cs = [] := by
          simp only [voidOk, Bool.and_eq_true] at hvalid
          have := hvalid.1
          simp only [beq_self_eq_true, if_true] at this
          exact List.isEmpty_iff.1 this
        subst hempty
        have hv' : v ∈ collectAttr "img" "src" (Node.elem "img" attrs []) := by
          rcases hv with hv | hv
          · simp [collectAttr, collectAttrList, ha] at hv
          · exact hv
        cases hsrc : attrLookup attrs "src" with
        | none => simp [collectAttr, collectAttrList, hsrc] at hv'
        | some s =>
          have hvs : v = s := by
            simpa [collectAttr, collectAttrList, hsrc] using hv'
          subst hvs
          have hshape : html2textHandle (Node.elem "img" attrs [])
              = "![" ++ ((attrLookup attrs "alt").getD "") ++ "](" ++ v ++ ")" := by
            simp [html2textHandle, hsrc]
          rw [hshape]
          exact strContains_emit ("![" ++ ((attrLookup attrs "alt").getD "")) v
      · have hv' : v ∈ collectAttrList "a" "href" cs ∨ v ∈ collectAttrList "img" "src" cs := by
          rcases hv with hv | hv
          · exact Or.inl (by simpa [collectAttr, ha] using hv)
          · exact Or.inr (by simpa [collectAttr, hi] using hv)
        have hrec := handleKeepsList cs v hv' hvl
        simpa [html2textHandle, ha, hi] using hrec

/-- `handleKeepsNode` over a forest. -/
theorem handleKeepsList (cs : List Node) (v : String)
    (hv : v ∈ collectAttrList "a" "href" cs ∨ v ∈ collectAttrList "img" "src" cs)
    (hvalid : voidOkList cs = true) :
    strContains (handleNodes cs) ("](" ++ v ++ ")") = true := by
  cases cs with
  | nil => simp [collectAttrList] at hv
  | cons c cs' =>
    have hc : voidOk c = true ∧ voidOkList cs' = true := by
      simpa [voidOkList, Bool.and_eq_true] using hvalid
    show strContains (html2textHandle c ++ handleNodes cs') ("](" ++ v ++ ")") = true
    rcases hv with hv | hv
    · rcases List.mem_append.1 (by simpa [collectAttrList] using hv) with h | h
      · exact strContains_mono_right _ (handleKeepsNode c v (Or.inl h) hc.1)
      · exact strContains_mono_left _ (handleKeepsList cs' v (Or.inl h) hc.2)
    · rcases List.mem_append.1 (by simpa [collectAttrList] using hv) with h | h
      · exact strContains_mono_right _ (handleKeepsNode c v (Or.inr h) hc.1)
      · exact strContains_mono_left _ (handleKeepsList cs' v (Or.inr h) hc.2)
end

/-! ## Lemmas about the embedded functions -/

/-- The anchor loop of `get_article_list` is a `filterMap` over the anchors. -/
theorem articleLoop_eq_filterMap (base : String) : ∀ items : List Node,
    articleLoop base items = items.filterMap fun item =>
      match item.getAttr "href" with
      | some href =>
        if href != "" && !strContains href donationMarker then some (urljoin base href)
        else none
      | none => none := by
  intro items
  induction items with
  | nil => rfl
  | cons item rest ih =>
    cases h : item.getAttr "href" with
    | none => simp [articleLoop, List.filterMap_cons, h, ih]
    | some href =>
      simp only [articleLoop, List.filterMap_cons, h]
      split <;> simp [ih]

/-- A successful `find?` for a direct div splits the children into a div-free
prelude, the found div, and the rest; `eraseFirstDirectDiv` removes exactly
the found div. -/
theorem firstDirectDiv_decomp : ∀ {cs : List Node} {d : Node},
    firstDirectDiv cs = some d →
    ∃ l r, cs = l ++ d :: r ∧ (∀ x ∈ l, isDivTag x = false) ∧
      eraseFirstDirectDiv cs = l ++ r := by
  intro cs
  induction cs with
  | nil => intro d h; simp [firstDirectDiv] at h
  | cons c cs' ih =>
    intro d h
    cases hc : isDivTag c with
    | true =>
      have hcd : c = d := by
        have := h
        unfold firstDirectDiv at this
        rw [List.find?_cons_of_pos _ hc] at this
        exact Option.some.inj this
      subst hcd
      exact ⟨[], cs', by simp, by simp, by simp [eraseFirstDirectDiv, hc]⟩
    | false =>
      have h' : firstDirectDiv cs' = some d := by
        have := h
        unfold firstDirectDiv at this ⊢
        rwa [List.find?_cons_of_neg _ (by simp [hc])] at this
      obtain ⟨l, r, h1, h2, h3⟩ := ih h'
      refine ⟨c :: l, r, by simp [h1], ?_, ?_⟩
      · intro x hx
        rcases List.mem_cons.1 hx with rfl | hx'
        · exact hc
        · exact h2 x hx'
      · simp [eraseFirstDirectDiv, hc, h3]

/-- The image loop attempts exactly one download per enumerated image, in
order, when every enumerated image has a `src` attribute. -/
theorem process_imgs_downloads (url : String) (ok : String → Bool) :
    ∀ (imgs : List Node) (md : String) (log : List (String × Bool)),
    (∀ i ∈ imgs, (i.getAttr "src").isSome = true) →
    downloadsOf (process_imgs url ok imgs md log)
      = log ++ imgs.map fun i =>
          (urljoin url ((i.getAttr "src").getD ""), ok (urljoin url ((i.getAttr "src").getD ""))) := by
  intro imgs
  induction imgs with
  | nil => intro md log _; simp [process_imgs, downloadsOf]
  | cons i rest ih =>
    intro md log h
    obtain ⟨s, hs⟩ := Option.isSome_iff_exists.1 (h i (List.mem_cons_self i rest))
    have hrest : ∀ x ∈ rest, (x.getAttr "src").isSome = true :=
      fun x hx => h x (List.mem_cons_of_mem _ hx)
    cases hok : ok (urljoin url s) with
    | true =>
      have hstep : process_imgs url ok (i :: rest) md log
          = process_imgs url ok rest
              (pyReplace md s (pyReplace ("./assets/" ++ os_path_basename (urljoin url s)) "\\" "/"))
              (log ++ [(urljoin url s, true)]) := by
        simp [process_imgs, hs, hok]
      rw [hstep, ih _ _ hrest]
      simp [hs, hok, List.append_assoc]
    | false =>
      have hstep : process_imgs url ok (i :: rest) md log
          = process_imgs url ok rest md (log ++ [(urljoin url s, false)]) := by
        simp [process_imgs, hs, hok]
      rw [hstep, ih _ _ hrest]
      simp [hs, hok, List.append_assoc]

/-- When every enumerated image has a `src` attribute, the image loop returns
normally: the Markdown is the sequential per-image localization fold of the
converted text, and one download per image is attempted in document order. -/
theorem process_imgs_localize (url : String) (ok : String → Bool) :
    ∀ (imgs : List Node) (md : String) (log : List (String × Bool)),
    (∀ i ∈ imgs, (i.getAttr "src").isSome = true) →
    process_imgs url ok imgs md log
      = ProcResult.ok (localizeAll url ok imgs md)
          (log ++ imgs.map fun i =>
            (urljoin url ((i.getAttr "src").getD ""),
             ok (urljoin url ((i.getAttr "src").getD "")))) := by
  intro imgs
  induction imgs with
  | nil => intro md log _; simp [process_imgs, localizeAll]
  | cons i rest ih =>
    intro md log h
    obtain ⟨s, hs⟩ := Option.isSome_iff_exists.1 (h i (List.mem_cons_self i rest))
    have hrest : ∀ x ∈ rest, (x.getAttr "src").isSome = true :=
      fun x hx => h x (List.mem_cons_of_mem _ hx)
    cases hok : ok (urljoin url s) with
    | true =>
      have hstep : process_imgs url ok (i :: rest) md log
          = process_imgs url ok rest
              (pyReplace md s (pyReplace ("./assets/" ++ os_path_basename (urljoin url s)) "\\" "/"))
              (log ++ [(urljoin url s, true)]) := by
        simp [process_imgs, hs, hok]
      rw [hstep, ih _ _ hrest]
      simp [localizeAll, localizeStep, hs, hok, List.append_assoc]
    | false =>
      have hstep : process_imgs url ok (i :: rest) md log
          = process_imgs url ok rest md (log ++ [(urljoin url s, false)]) := by
        simp [process_imgs, hs, hok]
      rw [hstep, ih _ _ hrest]
      simp [localizeAll, localizeStep, hs, hok, List.append_assoc]

/-- One-step unfolding of the enumerate loop. -/
theorem download_column_loop_cons (res : String → Except PyErr Bool)
    (u : String) (rest : List String) (idx total : Nat) :
    download_column_loop res (u :: rest) idx total =
      match res u with
      | Except.error e => Except.error e
      | Except.ok b =>
        match download_column_loop res rest (idx + 1) total with
        | Except.error e => Except.error e
        | Except.ok tail =>
          Except.ok (ColEvent.process u b ::
            (if idx < total then ColEvent.sleep 5 :: tail else tail)) := rfl

/-- With no exceptions, the enumerate loop of `download_column` processes
every URL in order with a sleep between consecutive articles. -/
theorem download_column_loop_ok (res : String → Except PyErr Bool) :
    ∀ (rest : List String) (idx total : Nat),
    (∀ u ∈ rest, ∃ b, res u = Except.ok b) → total + 1 = idx + rest.length →
    download_column_loop res rest idx total
      = Except.ok (List.intersperse (ColEvent.sleep 5)
          (rest.map fun u => ColEvent.process u (okD (res u)))) := by
  intro rest
  induction rest with
  | nil => intro idx total _ _; simp [download_column_loop, List.intersperse]
  | cons u rest' ih =>
    intro idx total h hlen
    obtain ⟨b, hb⟩ := h u (List.mem_cons_self _ _)
    have hrest : ∀ x ∈ rest', ∃ b, res x = Except.ok b :=
      fun x hx => h x (List.mem_cons_of_mem _ hx)
    cases rest' with
    | nil =>
      have htot : total = idx := by simp at hlen; omega
      subst htot
      simp [download_column_loop, hb, okD, List.intersperse]
    | cons v rest'' =>
      have hlt : idx < total := by simp [List.length_cons] at hlen; omega
      have hlen' : total + 1 = (idx + 1) + (v :: rest'').length := by
        simp [List.length_cons] at hlen ⊢; omega
      have ihh := ih (idx + 1) total hrest hlen'
      rw [download_column_loop_cons, hb, ihh]
      simp only [List.map_cons, List.intersperse_cons_cons]
      simp [hlt, okD, hb]

/-- An exception thrown while processing one article propagates out of the
loop no matter how many articles remain. -/
theorem download_column_loop_error (res : String → Except PyErr Bool)
    (u : String) (e : PyErr) (hu : res u = Except.error e) :
    ∀ (pre post : List String) (idx total : Nat),
    (∀ p ∈ pre, ∃ b, res p = Except.ok b) →
    download_column_loop res (pre ++ u :: post) idx total = Except.error e := by
  intro pre
  induction pre with
  | nil => intro post idx total _; simp [download_column_loop, hu]
  | cons p pre' ih =>
    intro post idx total h
    obtain ⟨b, hb⟩ := h p (List.mem_cons_self _ _)
    have h' : ∀ x ∈ pre', ∃ b, res x = Except.ok b :=
      fun x hx => h x (List.mem_cons_of_mem _ hx)
    simp [download_column_loop, hb, ih post (idx + 1) total h']

/-- Intersperse over processing events recovers exactly the URL list. -/
theorem interspersed_process_urls (g : String → Bool) : ∀ urls : List String,
    (List.intersperse (ColEvent.sleep 5)
      (urls.map fun u => ColEvent.process u (g u))).filterMap eventUrl = urls := by
  intro urls
  induction urls with
  | nil => simp
  | cons u rest ih =>
    cases rest with
    | nil => simp [List.intersperse_singleton, eventUrl]
    | cons v rest' =>
      simp only [List.map_cons] at ih ⊢
      simp [List.intersperse_cons_cons, List.filterMap_cons, eventUrl, ih]

/-- Intersperse over processing events contains exactly `N - 1` sleeps. -/
theorem interspersed_sleep_count (g : String → Bool) : ∀ urls : List String,
    ((List.intersperse (ColEvent.sleep 5)
      (urls.map fun u => ColEvent.process u (g u))).filter isSleepEv).length
      = urls.length - 1 := by
  intro urls
  induction urls with
  | nil => simp
  | cons u rest ih =>
    cases rest with
    | nil => simp [List.intersperse_singleton, isSleepEv]
    | cons v rest' =>
      simp only [List.map_cons] at ih ⊢
      rw [List.intersperse_cons_cons]
      simp only [List.filter_cons, isSleepEv]
      simp only [if_true, if_false, Bool.false_eq_true]
      rw [List.length_cons]
      rw [ih]
      simp [List.length_cons]

/-- A next-page URL delivered by the link table is one of its targets. -/
theorem lookupNext_mem : ∀ {ps : List (String × String)} {u v : String},
    lookupNext ps u = some v → v ∈ ps.map Prod.snd := by
  intro ps
  induction ps with
  | nil => intro u v h; simp [lookupNext] at h
  | cons kv rest ih =>
    intro u v h
    obtain ⟨k, w⟩ := kv
    by_cases hk : (k == u) = true
    · have : w = v := by simpa [lookupNext, hk] using h
      subst this
      simp
    · have h' : lookupNext rest u = some v := by
        simpa [lookupNext, hk] using h
      simpa using Or.inr (ih h')

/-- Filtering with a stronger predicate keeps at most as many elements. -/
theorem filter_length_le_of_imp {α : Type} (p q : α → Bool)
    (imp : ∀ x, q x = true → p x = true) :
    ∀ l : List α, (l.filter q).length ≤ (l.filter p).length := by
  intro l
  induction l with
  | nil => simp
  | cons a l ih =>
    cases hq : q a with
    | true =>
      have hp := imp a hq
      simp [List.filter_cons, hq, hp]
      omega
    | false =>
      cases hp : p a <;> simp [List.filter_cons, hq, hp] <;> omega

/-- Filtering with a strictly stronger predicate (it drops a member the weak
one keeps) keeps strictly fewer elements. -/
theorem filter_length_lt {α : Type} (p q : α → Bool) (a : α)
    (hpa : p a = true) (hqa : q a = false) (imp : ∀ x, q x = true → p x = true) :
    ∀ l : List α, a ∈ l → (l.filter q).length < (l.filter p).length := by
  intro l
  induction l with
  | nil => intro h; simp at h
  | cons b l ih =>
    intro hmem
    rcases List.mem_cons.1 hmem with rfl | hmem'
    · simp [List.filter_cons, hpa, hqa]
      have := filter_length_le_of_imp p q imp l
      omega
    · cases hq : q b with
      | true =>
        have hp := imp b hq
        simp [List.filter_cons, hq, hp]
        have := ih hmem'
        omega
      | false =>
        cases hp : p b with
        | true =>
          simp [List.filter_cons, hq, hp]
          have := ih hmem'
          omega
        | false =>
          simp [List.filter_cons, hq, hp]
          exact ih hmem'

/-- Fuel exceeding the number of not-yet-visited link targets suffices for
the pagination crawl to finish as `done`. -/
theorem crawlFrom_halts (pages : List (String × String)) :
    ∀ (fuel : Nat) (visited : List String) (current : String),
    ((pages.map Prod.snd).filter fun u => !visitedHas visited u).length < fuel →
    ∃ vs, crawlFrom pages fuel visited current = CrawlResult.done vs := by
  intro fuel
  induction fuel with
  | zero => intro visited current h; omega
  | succ fuel ih =>
    intro visited current h
    cases hnx : lookupNext pages current with
    | none => exact ⟨visited, by simp [crawlFrom, hnx]⟩
    | some nxt =>
      cases h1 : (nxt == "") with
      | true => exact ⟨visited, by simp [crawlFrom, hnx, h1]⟩
      | false =>
        cases h2 : visitedHas visited nxt with
        | true => exact ⟨visited, by simp [crawlFrom, hnx, h2]⟩
        | false =>
          have hmem : nxt ∈ pages.map Prod.snd := lookupNext_mem hnx
          have hlt : ((pages.map Prod.snd).filter fun u => !visitedHas (nxt :: visited) u).length
              < ((pages.map Prod.snd).filter fun u => !visitedHas visited u).length := by
            apply filter_length_lt _ _ nxt (by simp [h2]) (by simp [visitedHas]) _ _ hmem
            intro x hx
            simp only [visitedHas, Bool.not_eq_true', Bool.or_eq_false_iff] at hx
            simp [hx.2]
          obtain ⟨vs, hvs⟩ := ih (nxt :: visited) nxt (by omega)
          exact ⟨vs, by simp [crawlFrom, hnx, h1, h2, hvs]⟩

/-! ## Claim theorems -/

/-- C1 counterexample: two failures of the claim.  First, the code's local
filename is `os.path.basename` of the full resolved URL string —
`img.png?v=1` for a src with a query string — not the resolved URL's path
basename `img.png`.  Second, replaced-iff-success is false per image: with
srcs `x.png` and `ax.png` and both downloads succeeding, the sequential
`str.replace` for `x.png` also rewrites the `x.png` inside `ax.png`, so the
output holds `a./assets/x.png` and the reference `./assets/ax.png` the claim
demands appears nowhere. -/
theorem c1_localization_counterexample :
    os_path_basename (urljoin "https://site/a/p.html" "img.png?v=1") = "img.png?v=1" ∧
    imageFilenameClaim (urljoin "https://site/a/p.html" "img.png?v=1") = "img.png" ∧
    os_path_basename (urljoin "https://site/a/p.html" "img.png?v=1")
      ≠ imageFilenameClaim (urljoin "https://site/a/p.html" "img.png?v=1") ∧
    process_content "https://site/a/p.html" (fun _ => true) twoImgContent
      = ProcResult.ok "![](./assets/x.png)![](a./assets/x.png)"
          [("https://site/a/x.png", true), ("https://site/a/ax.png", true)] ∧
    strContains "![](./assets/x.png)![](a./assets/x.png)" "./assets/ax.png" = false :=
  ⟨rfl, rfl, by decide, rfl, by decide⟩

/-- C1 (amended): for every image element of an article's cleaned content,
processed sequentially in document order, the image URL is its src resolved
against the article's own URL (not the site base) and the local filename is
the basename of the full resolved URL string (query and fragment included);
exactly when the download succeeds, every literal occurrence of that image's
original src string in the current Markdown text — the text as already
rewritten for the earlier images — is replaced by `./assets/{filename}` with
backslashes normalized to forward slashes; when the download fails, that
image's step leaves the Markdown unchanged, and in every case processing
returns normally with one download attempt per image. -/
theorem c1_image_localization (url : String) (ok : String → Bool) (content : Node)
    (hsrcs : ∀ i ∈ (clean_content content).findAll "img" [], (i.getAttr "src").isSome = true) :
    process_content url ok content
      = ProcResult.ok
          (localizeAll url ok ((clean_content content).findAll "img" [])
            (html2textHandle (clean_content content)))
          (((clean_content content).findAll "img" []).map fun i =>
            (urljoin url ((i.getAttr "src").getD ""),
             ok (urljoin url ((i.getAttr "src").getD "")))) := by
  have hpc : process_content url ok content
      = process_imgs url ok ((clean_content content).findAll "img" [])
          (html2textHandle (clean_content content)) [] := rfl
  rw [hpc, process_imgs_localize url ok _ _ _ hsrcs]
  simp

/-- Witness for C1: a two-image article with the first download failing and
the second succeeding — the failed image's reference stays `x.png`, the
successful one is rewritten. -/
theorem c1_image_localization_witness :
    process_content "https://site/a/p.html" (fun u => u == "https://site/a/y.png")
        mixedImgContent
      = ProcResult.ok "![](x.png)![](./assets/y.png)"
          [("https://site/a/x.png", false), ("https://site/a/y.png", true)] := by
  have h := c1_image_localization "https://site/a/p.html"
    (fun u => u == "https://site/a/y.png") mixedImgContent (by decide)
  exact h.trans (by rfl)

/-- C2 counterexample: a menu-item anchor with an empty href does not contain
the donation marker, so the claim includes its resolution (the site base),
but the code's truthiness test drops it. -/
theorem c2_empty_href_counterexample :
    get_article_list listingDemo "https://learn.lianglianglee.com/"
      = ["https://learn.lianglianglee.com/a.html"] ∧
    listArticlesClaim listingDemo "https://learn.lianglianglee.com/"
      = ["https://learn.lianglianglee.com/a.html", "https://learn.lianglianglee.com/"] ∧
    get_article_list listingDemo "https://learn.lianglianglee.com/"
      ≠ listArticlesClaim listingDemo "https://learn.lianglianglee.com/" :=
  ⟨rfl, rfl, by decide⟩

/-- C2 (amended): `list_articles` selects the last qualifying sub-list of the
navigation container and returns, in document order, each of its menu-item
links resolved against the site base URL, excluding links whose href is
missing, empty, or contains the donation marker; it returns the empty list
when the container or any qualifying sub-list is absent. -/
theorem c2_menu_enumeration (doc : Node) (baseUrl : String) :
    get_article_list doc baseUrl = listArticlesAmended doc baseUrl := by
  cases hfind : doc.findFirst "div" [("class", "book-menu uncollapsible")] with
  | none => simp [get_article_list, listArticlesAmended, hfind]
  | some bookMenu =>
    cases hlast : (bookMenu.findAll "ul" [("class", "uncollapsible")]).getLast? with
    | none => simp [get_article_list, listArticlesAmended, hfind, hlast]
    | some subList =>
      have e1 : get_article_list doc baseUrl
          = articleLoop baseUrl (subList.findAll "a" [("class", "menu-item")]) := by
        simp [get_article_list, hfind, hlast]
      have e2 : listArticlesAmended doc baseUrl
          = (subList.findAll "a" [("class", "menu-item")]).filterMap fun item =>
              match item.getAttr "href" with
              | some href =>
                if href != "" && !strContains href donationMarker then some (urljoin baseUrl href)
                else none
              | none => none := by
        simp [listArticlesAmended, hfind, hlast]
      rw [e1, e2]
      exact articleLoop_eq_filterMap baseUrl (subList.findAll "a" [("class", "menu-item")])

/-- C3: for a non-empty article list with no article raising an exception,
the menu-mode orchestrator processes all N articles sequentially in list
order — also when an article's processing reports failure — and sleeps the
five-unit delay exactly N-1 times, between consecutive articles only. -/
theorem c3_sequential_processing (urls : List String) (res : String → Except PyErr Bool)
    (hne : urls ≠ []) (hok : ∀ u ∈ urls, ∃ b, res u = Except.ok b) :
    download_column urls res
      = Except.ok (List.intersperse (ColEvent.sleep 5)
          (urls.map fun u => ColEvent.process u (okD (res u)))) ∧
    (List.intersperse (ColEvent.sleep 5)
      (urls.map fun u => ColEvent.process u (okD (res u)))).filterMap eventUrl = urls ∧
    ((List.intersperse (ColEvent.sleep 5)
      (urls.map fun u => ColEvent.process u (okD (res u)))).filter isSleepEv).length
      = urls.length - 1 := by
  refine ⟨?_, interspersed_process_urls _ urls, interspersed_sleep_count _ urls⟩
  unfold download_column
  rw [if_neg (by simpa [List.isEmpty_iff] using hne)]
  exact download_column_loop_ok res urls 1 urls.length hok (by omega)

/-- Witness for C3: three articles, the middle one failing, all processed
with two sleeps. -/
theorem c3_sequential_processing_witness :
    download_column ["u1", "u2", "u3"] (fun u => Except.ok (u != "u2"))
      = Except.ok [ColEvent.process "u1" true, ColEvent.sleep 5,
          ColEvent.process "u2" false, ColEvent.sleep 5, ColEvent.process "u3" true] := by
  have h := c3_sequential_processing ["u1", "u2", "u3"] (fun u => Except.ok (u != "u2"))
    (by decide) (fun u _ => ⟨u != "u2", rfl⟩)
  exact h.1.trans (by rfl)

/-- C4 counterexample: when the first child is a span and the second child is
the centered notice div, the claim says the tree is left unchanged, but
`clean` removes the notice div — `find('div', recursive=False)` looks for
the first *div* child, not the first child. -/
theorem c4_first_child_counterexample :
    clean_content skipContent
      = Node.elem "div" [("class", "book-post")] [Node.elem "span" [] [Node.text "x"]] ∧
    skipContent.numChildren = 2 ∧ (clean_content skipContent).numChildren = 1 :=
  ⟨rfl, rfl, rfl⟩

/-- C4 (amended): `clean` inspects only the first direct child that is a div
element (skipping earlier non-div children): it removes exactly that div when
it is center-aligned and its text contains the notice phrase, and leaves the
tree unchanged in every other case, including when that div is centered but
holds unrelated text. -/
theorem c4_clean_first_div (tag : String) (attrs : List (String × String)) (cs : List Node) :
    (firstDirectDiv cs = none → clean_content (Node.elem tag attrs cs) = Node.elem tag attrs cs) ∧
    (∀ d, firstDirectDiv cs = some d → isGoogleNoticeDiv d = false →
      clean_content (Node.elem tag attrs cs) = Node.elem tag attrs cs) ∧
    (∀ d, firstDirectDiv cs = some d → isGoogleNoticeDiv d = true →
      ∃ l r, cs = l ++ d :: r ∧ (∀ x ∈ l, isDivTag x = false) ∧
        clean_content (Node.elem tag attrs cs) = Node.elem tag attrs (l ++ r)) := by
  refine ⟨?_, ?_, ?_⟩
  · intro h; simp [clean_content, h]
  · intro d hd hnot; simp [clean_content, hd, hnot]
  · intro d hd hyes
    obtain ⟨l, r, h1, h2, h3⟩ := firstDirectDiv_decomp hd
    exact ⟨l, r, h1, h2, by simp [clean_content, hd, hyes, h3]⟩

/-- Witness for C4: a centered first div with unrelated text is left
untouched. -/
theorem c4_clean_first_div_witness :
    clean_content centeredUnrelatedContent = centeredUnrelatedContent := by
  have h := (c4_clean_first_div "div" [("class", "book-post")]
      [Node.elem "div" [("align", "center")] [Node.text "just an epigraph"],
       Node.elem "p" [] [Node.text "body"]]).2.1
    (Node.elem "div" [("align", "center")] [Node.text "just an epigraph"]) (by rfl) (by rfl)
  exact h

/-- C5 counterexample: the code keeps every whitespace character, so the
spec's example input sanitizes to a string with a double space where `/` was
dropped between two kept spaces, not to the single-spaced string the claim
names. -/
theorem c5_sanitize_counterexample :
    sanitizeTitle "Hello, World! / Chapter-1_" = "Hello World  Chapter-1_" ∧
    sanitizeTitle "Hello, World! / Chapter-1_" ≠ "Hello World Chapter-1_" :=
  ⟨rfl, by decide⟩

/-- C5 (amended): sanitization keeps exactly the alphanumeric characters,
whitespace characters, and `-` and `_`, in order; the example input
`"Hello, World! / Chapter-1_"` sanitizes to `"Hello World  Chapter-1_"`
(both spaces around the dropped `/` are kept, leaving a double space). -/
theorem c5_sanitize :
    (∀ s : String, (sanitizeTitle s).toList = s.toList.filter specKeepChar) ∧
    sanitizeTitle "Hello, World! / Chapter-1_" = "Hello World  Chapter-1_" := by
  refine ⟨?_, rfl⟩
  intro s
  show (s.toList.filter fun c => pyIsAlnum c || pyIsSpace c || "-_".toList.contains c)
      = s.toList.filter specKeepChar
  apply List.filter_congr
  intro c _
  show (pyIsAlnum c || pyIsSpace c || ['-', '_'].contains c) = specKeepChar c
  simp [specKeepChar, List.contains_cons, Bool.or_assoc]

/-- C6: conversion of a valid content subtree never drops a hyperlink or an
image reference — every anchor href and every image src collected from the
input appears as the target of a Markdown link/image construct in the
output. -/
theorem c6_convert_preserves_refs (t : Node) (hvalid : voidOk t = true) :
    (∀ href ∈ collectAttr "a" "href" t,
      strContains (html2textHandle t) ("](" ++ href ++ ")") = true) ∧
    (∀ srcv ∈ collectAttr "img" "src" t,
      strContains (html2textHandle t) ("](" ++ srcv ++ ")") = true) :=
  ⟨fun href h => handleKeepsNode t href (Or.inl h) hvalid,
   fun srcv h => handleKeepsNode t srcv (Or.inr h) hvalid⟩

/-- Witness for C6 on a subtree with one link and one image. -/
theorem c6_convert_preserves_refs_witness :
    strContains (html2textHandle linkImgContent) ("](" ++ "x.html" ++ ")") = true ∧
    strContains (html2textHandle linkImgContent) ("](" ++ "y.png" ++ ")") = true := by
  have h := c6_convert_preserves_refs linkImgContent (by rfl)
  exact ⟨h.1 "x.html" (by decide), h.2 "y.png" (by decide)⟩

/-- C7: for every finite next-page-link table — cycles included — the
pagination orchestrator halts as Done: the start URL is visited before its
content is used and a null, empty, or already-visited next URL ends the
crawl. -/
theorem c7_pagination_terminates (pages : List (String × String)) (start : String) :
    ∃ vs, crawlColumn pages start = CrawlResult.done vs := by
  unfold crawlColumn
  apply crawlFrom_halts
  have hle := List.length_filter_le (fun u => !visitedHas [start] u) (pages.map Prod.snd)
  omega

/-- C8 counterexample: an image inside the removed notice banner is an image
element of the original, uncleaned content subtree, yet the image loop — run
on the cleaned tree — neither downloads it nor rewrites any reference to
it. -/
theorem c8_banner_image_counterexample :
    collectAttr "img" "src" bannerContent = ["ban.png", "pic.png"] ∧
    process_content "https://s/a/p.html" (fun _ => true) bannerContent
      = ProcResult.ok "body![](./assets/pic.png)" [("https://s/a/pic.png", true)] :=
  ⟨rfl, rfl⟩

/-- C8 (amended): the asset-localization step enumerates exactly the image
elements of the *cleaned* content subtree (one download attempt per such
image, in document order), so an image inside the removed notice banner is
neither downloaded nor rewritten. -/
theorem c8_enumeration_after_cleaning (url : String) (ok : String → Bool) (content : Node)
    (hsrcs : ∀ i ∈ (clean_content content).findAll "img" [], (i.getAttr "src").isSome = true) :
    downloadsOf (process_content url ok content)
      = ((clean_content content).findAll "img" []).map fun i =>
          (urljoin url ((i.getAttr "src").getD ""),
           ok (urljoin url ((i.getAttr "src").getD ""))) := by
  unfold process_content
  have h := process_imgs_downloads url ok ((clean_content content).findAll "img" [])
    (html2textHandle (clean_content content)) [] hsrcs
  simpa using h

/-- Witness for C8: the banner-containing article attempts exactly the body
image's download. -/
theorem c8_enumeration_after_cleaning_witness :
    downloadsOf (process_content "https://s/a/p.html" (fun _ => true) bannerContent)
      = [("https://s/a/pic.png", true)] := by
  have h := c8_enumeration_after_cleaning "https://s/a/p.html" (fun _ => true) bannerContent
    (by decide)
  exact h.trans (by rfl)

/-- C9: an img element without a src attribute resolves (via urljoin with the
empty string) to the article's own URL; when that download succeeds, the
rewrite reads the missing attribute and raises KeyError, aborting the
article's processing, and in column mode an article exception propagates out
of the loop, terminating the whole column crawl. -/
theorem c9_missing_src_keyerror (url : String) (ok : String → Bool) (content : Node)
    (i : Node) (rest : List Node)
    (himg : (clean_content content).findAll "img" [] = i :: rest)
    (hsrc : i.getAttr "src" = none)
    (hok : ok (urljoin url "") = true)
    (pre post : List String) (u : String) (res : String → Except PyErr Bool)
    (hpre : ∀ p ∈ pre, ∃ b, res p = Except.ok b)
    (hu : res u = Except.error PyErr.keyError) :
    urljoin url "" = url ∧
    process_content url ok content = ProcResult.keyError [(url, true)] ∧
    download_column (pre ++ u :: post) res = Except.error PyErr.keyError := by
  have hjoin : urljoin url "" = url := by simp [urljoin]
  refine ⟨hjoin, ?_, ?_⟩
  · have hpc : process_content url ok content
        = process_imgs url ok ((clean_content content).findAll "img" [])
            (html2textHandle (clean_content content)) [] := rfl
    have hok' : ok url = true := by rwa [hjoin] at hok
    rw [hpc, himg]
    simp [process_imgs, hsrc, hjoin, hok']
  · unfold download_column
    rw [if_neg (by simp)]
    exact download_column_loop_error res u PyErr.keyError hu pre post 1 _ hpre

/-- Witness for C9: a src-less image crashes its article; a crashing article
crashes the whole column loop. -/
theorem c9_missing_src_keyerror_witness :
    process_content "https://s/a/p.html" (fun _ => true) srclessImgContent
      = ProcResult.keyError [("https://s/a/p.html", true)] ∧
    download_column ["u1", "u2", "u3"]
      (fun u => if u == "u2" then Except.error PyErr.keyError else Except.ok true)
      = Except.error PyErr.keyError := by
  have h := c9_missing_src_keyerror "https://s/a/p.html" (fun _ => true) srclessImgContent
    srclessImg [] (by rfl) (by rfl) (by rfl)
    ["u1"] ["u3"] "u2" (fun u => if u == "u2" then Except.error PyErr.keyError else Except.ok true)
    (by intro p hp; simp at hp; subst hp; exact ⟨true, rfl⟩) (by rfl)
  exact ⟨h.2.1, h.2.2⟩

/-- C10: when two articles' titles come out equal (by sanitization or
fallback), both are saved at the same `{output_dir}/{title}.md` path and the
later write silently overwrites the earlier one — reads at that path return
the second article's content, with no error. -/
theorem c10_title_collision_overwrite (dir : String) (doc1 doc2 : Node) (url1 url2 : String)
    (m1 m2 : String) (fs : List (String × String))
    (h : get_title doc1 url1 = get_title doc2 url2) :
    markdownPath dir (get_title doc1 url1) = markdownPath dir (get_title doc2 url2) ∧
    fsRead (save_markdown (save_markdown fs dir (get_title doc1 url1) m1)
        dir (get_title doc2 url2) m2)
      (markdownPath dir (get_title doc1 url1)) = some m2 := by
  constructor
  · rw [h]
  · rw [h]
    simp [save_markdown, fsWrite, fsRead]

/-- Witness for C10: the titles `A!` and `A?` both sanitize to `A` and the
second save wins. -/
theorem c10_title_collision_overwrite_witness :
    markdownPath "col" (get_title titledDocA "u1") = markdownPath "col" (get_title titledDocB "u2") ∧
    fsRead (save_markdown (save_markdown [] "col" (get_title titledDocA "u1") "first")
        "col" (get_title titledDocB "u2") "second")
      (markdownPath "col" (get_title titledDocA "u1")) = some "second" :=
  c10_title_collision_overwrite "col" titledDocA titledDocB "u1" "u2" "first" "second" [] (by rfl)
